import Mathlib

/-!
Verification of the autoreload bridge of `shiny/_autoreload.py`:
the `ResponseMangler` chunked-response rewriter, the middleware's
`mangle_callback`, the `nudge` action, the `/notify` authentication gate,
the non-upgrade `process_request` redirect, and the
`InjectAutoreloadMiddleware` constructor.  Byte strings are modelled as
`List Nat` (one entry per byte); stateful objects are modelled by explicit
state passing; fallible code returns `Except String`.
-/

/-- A Python `bytes` value, one `Nat` per byte. -/
abbrev Bytes := List Nat

/-- Bytes of a Lean string literal (code points; all literals used are ASCII). -/
def strBytes (s : String) : Bytes := s.data.map Char.toNat

/-- ASCII lower-casing of one byte, as `str.lower` acts on ASCII text. -/
def lowerByte (b : Nat) : Nat := if 65 ≤ b ∧ b ≤ 90 then b + 32 else b

/-- ASCII lower-casing of a byte string. -/
def lowerBytes (s : Bytes) : Bytes := s.map lowerByte

/-- The header name compared against in `_add_to_content_length`. -/
def contentLengthBytes : Bytes := strBytes "content-length"

/-- The marker `b"</head>"` searched for by `mangle_callback`. -/
def headMarker : Bytes := strBytes "</head>"

/-- Boolean test that `old` is a leading segment of the second list
(the slice comparison driving Python `in` / `replace`). -/
def isPfx : Bytes → Bytes → Bool
  | [], _ => true
  | _ :: _, [] => false
  | a :: as, b :: bs => a == b && isPfx as bs

/-- Python `old in s` for byte strings: some position of `s` starts with `old`. -/
def containsSeq (old : Bytes) : Bytes → Bool
  | [] => old.isEmpty
  | c :: rest => isPfx old (c :: rest) || containsSeq old rest

/-- Python `s.replace(old, new, 1)`: replace the first occurrence of `old`
in `s` by `new` (inserting `new` at the front when `old` is empty). -/
def replace1 (old new : Bytes) : Bytes → Bytes
  | [] => if isPfx old [] then new else []
  | c :: rest =>
    if isPfx old (c :: rest) then new ++ List.drop old.length (c :: rest)
    else c :: replace1 old new rest

/-- Decimal digits of a natural number, most significant first
(`str(n)` for nonnegative `n`). -/
def natDec (n : Nat) : Bytes :=
  if h : n < 10 then [48 + n]
  else natDec (n / 10) ++ [48 + n % 10]
termination_by n
decreasing_by exact Nat.div_lt_self (by omega) (by omega)

/-- `str(i).encode("latin-1")` for an integer: optional minus sign then digits. -/
def intDec (i : Int) : Bytes :=
  if i < 0 then 45 :: natDec (-i).toNat else natDec i.toNat

/-- One byte is an ASCII decimal digit. -/
def isDigitB (b : Nat) : Bool := 48 ≤ b && b ≤ 57

/-- Value of a nonempty all-digit byte string, `none` on a non-digit. -/
def digitsVal (l : Bytes) : Option Nat :=
  l.foldl
    (fun acc d => acc.bind fun a => if isDigitB d then some (a * 10 + (d - 48)) else none)
    (some 0)

/-- Python `int(value)` on the canonical decimal forms produced by `str`:
an optional minus sign followed by at least one digit.  (Exotic accepted
forms such as surrounding whitespace, a leading plus, or underscores are
not modelled; the code under study only ever re-parses values it printed.) -/
def parsePyInt (s : Bytes) : Option Int :=
  match s with
  | [] => none
  | b :: rest =>
    if b = 45 then
      if rest = [] then none else (digitsVal rest).map fun n => -(n : Int)
    else (digitsVal (b :: rest)).map fun n => (n : Int)

-- ### Basic lemmas about the byte-string primitives

theorem isPfx_append (old s t : Bytes) (h : isPfx old s = true) :
    isPfx old (s ++ t) = true := by
  induction old generalizing s with
  | nil => simp [isPfx]
  | cons a as ih =>
    cases s with
    | nil => simp [isPfx] at h
    | cons b bs =>
      simp only [isPfx, Bool.and_eq_true, beq_iff_eq] at h
      simp only [List.cons_append, isPfx, Bool.and_eq_true, beq_iff_eq]
      exact ⟨h.1, ih bs h.2⟩

theorem isPfx_self_append (old t : Bytes) : isPfx old (old ++ t) = true := by
  induction old with
  | nil => simp [isPfx]
  | cons a as ih => simp [isPfx, ih]

theorem isPfx_length_le (old s : Bytes) (h : isPfx old s = true) :
    old.length ≤ s.length := by
  induction old generalizing s with
  | nil => simp
  | cons a as ih =>
    cases s with
    | nil => simp [isPfx] at h
    | cons b bs =>
      simp only [isPfx, Bool.and_eq_true] at h
      simpa using ih bs h.2

theorem isPfx_of_append_of_length_le (old s t : Bytes)
    (h : isPfx old (s ++ t) = true) (hl : old.length ≤ s.length) :
    isPfx old s = true := by
  induction old generalizing s with
  | nil => simp [isPfx]
  | cons a as ih =>
    cases s with
    | nil => simp at hl
    | cons b bs =>
      simp only [List.cons_append, isPfx, Bool.and_eq_true, beq_iff_eq] at h
      simp only [isPfx, Bool.and_eq_true, beq_iff_eq]
      exact ⟨h.1, ih bs h.2 (by simpa using hl)⟩

theorem drop_length_append (s t : Bytes) : List.drop s.length (s ++ t) = t := by
  induction s with
  | nil => rfl
  | cons a as ih => simpa using ih

theorem containsSeq_nil_marker (s : Bytes) : containsSeq [] s = true := by
  cases s <;> simp [containsSeq, isPfx, List.isEmpty]

theorem containsSeq_of_isPfx (old s : Bytes) (h : isPfx old s = true) :
    containsSeq old s = true := by
  cases s with
  | nil =>
    cases old with
    | nil => simp [containsSeq, List.isEmpty]
    | cons a as => simp [isPfx] at h
  | cons c rest => simp [containsSeq, h]

theorem containsSeq_tail (old : Bytes) (c : Nat) (rest : Bytes)
    (h : containsSeq old rest = true) : containsSeq old (c :: rest) = true := by
  simp [containsSeq, h]

theorem containsSeq_append_right (old s t : Bytes) (h : containsSeq old s = true) :
    containsSeq old (s ++ t) = true := by
  induction s with
  | nil =>
    simp only [containsSeq, List.isEmpty_iff] at h
    subst h
    simpa using containsSeq_nil_marker t
  | cons c rest ih =>
    simp only [containsSeq, Bool.or_eq_true] at h
    simp only [List.cons_append, containsSeq, Bool.or_eq_true]
    rcases h with h | h
    · exact Or.inl (by simpa using isPfx_append _ _ t h)
    · exact Or.inr (ih h)

theorem containsSeq_append_left (old s t : Bytes) (h : containsSeq old t = true) :
    containsSeq old (s ++ t) = true := by
  induction s with
  | nil => simpa using h
  | cons c rest ih => simpa [containsSeq] using Or.inr ih

theorem containsSeq_length_le (old s : Bytes) (h : containsSeq old s = true) :
    old.length ≤ s.length := by
  induction s with
  | nil =>
    simp only [containsSeq, List.isEmpty_iff] at h
    simp [h]
  | cons c rest ih =>
    simp only [containsSeq, Bool.or_eq_true] at h
    rcases h with h | h
    · exact isPfx_length_le _ _ h
    · exact Nat.le_trans (ih h) (by simp)

theorem drop_append_of_le (s t : Bytes) (n : Nat) (h : n ≤ s.length) :
    List.drop n (s ++ t) = List.drop n s ++ t := by
  induction s generalizing n with
  | nil =>
    have : n = 0 := by simpa using h
    simp [this]
  | cons a as ih =>
    cases n with
    | zero => simp
    | succ m => simpa using ih m (by simpa using h)


theorem replace1_append_of_contains (old new s t : Bytes)
    (h : containsSeq old s = true) :
    replace1 old new (s ++ t) = replace1 old new s ++ t := by
  induction s with
  | nil =>
    simp only [containsSeq, List.isEmpty_iff] at h
    subst h
    cases t with
    | nil => simp [replace1, isPfx]
    | cons c rest => simp [replace1, isPfx]
  | cons c rest ih =>
    simp only [containsSeq, Bool.or_eq_true] at h
    by_cases hp : isPfx old (c :: rest) = true
    · have hp2 : isPfx old (c :: (rest ++ t)) = true := by
        simpa using isPfx_append old (c :: rest) t hp
      have hlen : old.length ≤ (c :: rest).length := isPfx_length_le _ _ hp
      have hd : List.drop old.length (c :: (rest ++ t))
          = List.drop old.length (c :: rest) ++ t := by
        simpa using drop_append_of_le (c :: rest) t old.length hlen
      simp [replace1, hp, hp2, hd]
    · have hc : containsSeq old rest = true := by
        rcases h with h | h
        · exact absurd h hp
        · exact h
      have hp2 : isPfx old (c :: (rest ++ t)) = false := by
        by_contra hcon
        have hT : isPfx old ((c :: rest) ++ t) = true := by
          simpa using Bool.of_not_eq_false hcon
        have : isPfx old (c :: rest) = true :=
          isPfx_of_append_of_length_le _ _ _ hT
            (Nat.le_trans (containsSeq_length_le _ _ hc) (by simp))
        exact hp this
      simp [replace1, hp2, hp, ih hc]

theorem replace1_length (old new s : Bytes) (h : containsSeq old s = true) :
    (replace1 old new s).length + old.length = s.length + new.length := by
  induction s with
  | nil =>
    simp only [containsSeq, List.isEmpty_iff] at h
    subst h
    simp [replace1, isPfx]
  | cons c rest ih =>
    simp only [containsSeq, Bool.or_eq_true] at h
    by_cases hp : isPfx old (c :: rest) = true
    · have hlen : old.length ≤ (c :: rest).length := isPfx_length_le _ _ hp
      simp only [replace1, hp, if_pos, List.length_append, List.length_drop]
      simp only [List.length_cons] at hlen ⊢
      omega
    · have hc : containsSeq old rest = true := by
        rcases h with h | h
        · exact absurd h hp
        · exact h
      have := ih hc
      simp only [replace1, hp, Bool.false_eq_true, if_false, List.length_cons]
      omega

theorem replace1_head (old new v : Bytes) (hne : old ≠ []) :
    replace1 old new (old ++ v) = new ++ v := by
  cases old with
  | nil => exact absurd rfl hne
  | cons a as =>
    have hp : isPfx (a :: as) (a :: (as ++ v)) = true := by
      simpa using isPfx_self_append (a :: as) v
    have hd : List.drop (a :: as).length (a :: (as ++ v)) = v := by
      simpa using drop_length_append (a :: as) v
    simp [replace1, hp, hd]

theorem replace1_splice (old new u v : Bytes) (hne : old ≠ [])
    (hfirst : containsSeq old (u ++ old.dropLast) = false) :
    replace1 old new (u ++ old ++ v) = u ++ new ++ v := by
  induction u with
  | nil => simpa using replace1_head old new v hne
  | cons c u' ih =>
    obtain ⟨L, b, rfl⟩ := (List.eq_nil_or_concat old).resolve_left hne
    simp only [List.concat_eq_append, List.dropLast_concat] at ih hfirst ⊢
    simp only [List.cons_append, containsSeq, Bool.or_eq_false_iff] at hfirst
    obtain ⟨hno1, hno2⟩ := hfirst
    have hpf : isPfx (L ++ [b]) (c :: (u' ++ (L ++ b :: v))) = false := by
      by_contra hcon
      have hT : isPfx (L ++ [b]) ((c :: (u' ++ L)) ++ ([b] ++ v)) = true := by
        have h0 := Bool.of_not_eq_false hcon
        have heq : c :: (u' ++ (L ++ b :: v)) = (c :: (u' ++ L)) ++ ([b] ++ v) := by
          simp
        rwa [heq] at h0
      have hlen : (L ++ [b]).length ≤ (c :: (u' ++ L)).length := by
        simp only [List.length_append, List.length_cons, List.length_nil]
        omega
      have hP : isPfx (L ++ [b]) (c :: (u' ++ L)) = true :=
        isPfx_of_append_of_length_le _ _ _ hT hlen
      simp [hP] at hno1
    have ih2 := ih hno2
    simp only [List.append_assoc, List.singleton_append] at ih2
    simp [replace1, hpf, ih2]

theorem natDec_ne_nil (n : Nat) : natDec n ≠ [] := by
  rw [natDec]
  split
  · simp
  · simp

theorem natDec_head_digit (n : Nat) :
    ∃ h t, natDec n = h :: t ∧ 48 ≤ h ∧ h ≤ 57 := by
  induction n using Nat.strong_induction_on with
  | _ n ih =>
    rw [natDec]
    split
    · next h => exact ⟨48 + n, [], rfl, by omega, by omega⟩
    · next h =>
      obtain ⟨hd, tl, heq, h1, h2⟩ := ih (n / 10) (Nat.div_lt_self (by omega) (by omega))
      exact ⟨hd, tl ++ [48 + n % 10], by rw [heq]; simp, h1, h2⟩

theorem digitsVal_foldl (n : Nat) (a : Nat) :
    List.foldl
      (fun acc d => acc.bind fun x => if isDigitB d then some (x * 10 + (d - 48)) else none)
      (some a) (natDec n) = some (a * 10 ^ (natDec n).length + n) := by
  induction n using Nat.strong_induction_on generalizing a with
  | _ n ih =>
    rw [natDec]
    split
    · next h =>
      have hd : isDigitB (48 + n) = true := by
        simp only [isDigitB, Bool.and_eq_true, decide_eq_true_eq]
        omega
      simp only [List.foldl_cons, List.foldl_nil, Option.some_bind, hd, if_pos,
        List.length_cons, List.length_nil, pow_one, zero_add, pow_succ, pow_zero,
        one_mul]
      congr 1
      omega
    · next h =>
      have hrec := ih (n / 10) (Nat.div_lt_self (by omega) (by omega)) a
      have hd : isDigitB (48 + n % 10) = true := by
        simp only [isDigitB, Bool.and_eq_true, decide_eq_true_eq]
        omega
      rw [List.foldl_append, hrec]
      have hmod : n / 10 * 10 + n % 10 = n := by omega
      simp only [List.foldl_cons, List.foldl_nil, Option.some_bind, hd, if_pos,
        List.length_append, List.length_cons, List.length_nil]
      congr 1
      have h48 : 48 + n % 10 - 48 = n % 10 := by omega
      rw [h48, pow_succ]
      calc (a * 10 ^ (natDec (n / 10)).length + n / 10) * 10 + n % 10
          = a * (10 ^ (natDec (n / 10)).length * 10) + (n / 10 * 10 + n % 10) := by
            ring
        _ = a * (10 ^ (natDec (n / 10)).length * 10) + n := by rw [hmod]

theorem digitsVal_natDec (n : Nat) : digitsVal (natDec n) = some n := by
  have := digitsVal_foldl n 0
  simpa [digitsVal] using this

theorem parsePyInt_natDec (n : Nat) : parsePyInt (natDec n) = some (n : Int) := by
  obtain ⟨h, t, heq, h1, h2⟩ := natDec_head_digit n
  rw [heq]
  show (if h = 45 then
      if t = [] then none else (digitsVal t).map fun m => -(m : Int)
    else (digitsVal (h :: t)).map fun m => (m : Int)) = some (n : Int)
  rw [if_neg (by omega), ← heq, digitsVal_natDec]
  rfl

-- ### The ASGI data model and the ResponseMangler (shiny/_autoreload.py)

/-- An `http.response.start` ASGI event: status plus raw header pairs. -/
structure HTTPResponseStartEvent where
  status : Nat
  headers : List (Bytes × Bytes)
deriving DecidableEq

/-- The ASGI response events handled by `ResponseMangler.send`:
`http.response.start` and `http.response.body` (with its `more_body` flag). -/
inductive ASGISendEvent where
  | start (event : HTTPResponseStartEvent)
  | body (body : Bytes) (more_body : Bool)
deriving DecidableEq

/-- Header rewriting performed by `_add_to_content_length`: every header whose
name ASCII-decodes and lower-cases to `content-length` has its value re-encoded
as `str(int(value) + offset)`; other headers pass through.  A name with a
non-ASCII byte makes `decode("ascii")` raise, and a non-numeric value makes
`int(value)` raise; both surface as `Except.error`. -/
def adjustHeaders (offset : Int) : List (Bytes × Bytes) → Except String (List (Bytes × Bytes))
  | [] => .ok []
  | (name, value) :: rest =>
    if name.all (· < 128) then
      if lowerBytes name = contentLengthBytes then
        match parsePyInt value with
        | none => .error "invalid literal for int"
        | some i =>
          match adjustHeaders offset rest with
          | .error e => .error e
          | .ok rest2 => .ok ((name, intDec (i + offset)) :: rest2)
      else
        match adjustHeaders offset rest with
        | .error e => .error e
        | .ok rest2 => .ok ((name, value) :: rest2)
    else .error "ascii decode error"

/-- `_add_to_content_length(event, offset)` from `shiny/_autoreload.py`. -/
def _add_to_content_length (event : HTTPResponseStartEvent) (offset : Int) :
    Except String HTTPResponseStartEvent :=
  (adjustHeaders offset event.headers).map fun hs => { event with headers := hs }

/-- The mutable fields of a `ResponseMangler`: `_done`, `_response_start`,
`_body`. -/
structure ManglerState where
  done : Bool
  response_start : Option HTTPResponseStartEvent
  body : Bytes
deriving DecidableEq

/-- A freshly constructed `ResponseMangler`. -/
def initialMangler : ManglerState := ⟨false, none, []⟩

/-- `ResponseMangler.send` as a state transformer: given the caller-supplied
`mangler`, the current state and one incoming ASGI event, it returns the new
state together with the list of events forwarded to the downstream ASGI send
callable (in order), or an error when the code raises. -/
def ResponseMangler.send (mangler : Bytes → Bytes × Bool) (st : ManglerState)
    (event : ASGISendEvent) : Except String (ManglerState × List ASGISendEvent) :=
  if st.done then .ok (st, [event])
  else
    match event with
    | .start e => .ok ({ st with response_start := some e }, [])
    | .body chunk more_body =>
      match st.response_start with
      | none => .error "http.response.body ASGI event sent before http.response.start"
      | some response_start =>
        let body := st.body ++ chunk
        let old_len := body.length
        let mangled := mangler body
        let new_len := mangled.1.length
        match (if new_len ≠ old_len
            then _add_to_content_length response_start ((new_len : Int) - (old_len : Int))
            else .ok response_start) with
        | .error e => .error e
        | .ok rs2 =>
          if mangled.2 || !more_body then
            .ok (⟨true, none, []⟩, [.start rs2, .body mangled.1 more_body])
          else
            .ok (⟨false, some rs2, mangled.1⟩, [])

/-- The `mangle_callback` closure of `InjectAutoreloadMiddleware.__call__`,
parametrised by the middleware's injected script bytes `self.script`. -/
def mangle_callback (script : Bytes) (body : Bytes) : Bytes × Bool :=
  if containsSeq headMarker body then (replace1 headMarker script body, true)
  else (body, false)

/-- Feed a list of events through `ResponseMangler.send`, threading the state
and concatenating everything forwarded downstream. -/
def sendList (mangler : Bytes → Bytes × Bool) (st : ManglerState) :
    List ASGISendEvent → Except String (ManglerState × List ASGISendEvent)
  | [] => .ok (st, [])
  | e :: rest =>
    match ResponseMangler.send mangler st e with
    | .error s => .error s
    | .ok (st2, out1) =>
      match sendList mangler st2 rest with
      | .error s => .error s
      | .ok (st3, out2) => .ok (st3, out1 ++ out2)

/-- The body events delivering a list of chunks: every chunk but the last is
flagged `more_body = true`, the last closes the response. -/
def bodyEvents : List Bytes → List ASGISendEvent
  | [] => []
  | [c] => [.body c false]
  | c :: c2 :: rest => .body c true :: bodyEvents (c2 :: rest)

/-- The response-start events among a list of forwarded events, in order. -/
def startsOf : List ASGISendEvent → List HTTPResponseStartEvent
  | [] => []
  | .start e :: rest => e :: startsOf rest
  | .body _ _ :: rest => startsOf rest

/-- The concatenation of all body bytes among a list of forwarded events. -/
def bodyBytesOf : List ASGISendEvent → Bytes
  | [] => []
  | .start _ :: rest => bodyBytesOf rest
  | .body b _ :: rest => b ++ bodyBytesOf rest

/-- Observable output of a run: the forwarded start events and the total
forwarded body bytes (or the raised error). -/
def summary (r : Except String (ManglerState × List ASGISendEvent)) :
    Except String (List HTTPResponseStartEvent × Bytes) :=
  r.map fun p => (startsOf p.2, bodyBytesOf p.2)

/-- The content-length correction a flush performs once the mangler reported
done on buffered body `b`: skipped when the byte length did not change. -/
def condAdjust (script : Bytes) (rs : HTTPResponseStartEvent) (b : Bytes) :
    Except String HTTPResponseStartEvent :=
  if (replace1 headMarker script b).length ≠ b.length
  then _add_to_content_length rs
    (((replace1 headMarker script b).length : Int) - (b.length : Int))
  else .ok rs

-- ### Step lemmas for ResponseMangler.send

theorem send_accumulate (script : Bytes) (rs : HTTPResponseStartEvent) (acc chunk : Bytes)
    (h : containsSeq headMarker (acc ++ chunk) = false) :
    ResponseMangler.send (mangle_callback script) ⟨false, some rs, acc⟩
      (.body chunk true) = .ok (⟨false, some rs, acc ++ chunk⟩, []) := by
  simp [ResponseMangler.send, mangle_callback, h]

theorem send_flush_marker (script : Bytes) (rs : HTTPResponseStartEvent)
    (acc chunk : Bytes) (mb : Bool)
    (h : containsSeq headMarker (acc ++ chunk) = true) :
    ResponseMangler.send (mangle_callback script) ⟨false, some rs, acc⟩
      (.body chunk mb)
    = match condAdjust script rs (acc ++ chunk) with
      | .error e => .error e
      | .ok rs2 => .ok (⟨true, none, []⟩,
          [.start rs2, .body (replace1 headMarker script (acc ++ chunk)) mb]) := by
  cases hA : (if (replace1 headMarker script (acc ++ chunk)).length ≠ (acc ++ chunk).length
      then _add_to_content_length rs
        (((replace1 headMarker script (acc ++ chunk)).length : Int)
          - ((acc ++ chunk).length : Int))
      else .ok rs) with
  | error e => simp [ResponseMangler.send, mangle_callback, h, condAdjust, hA]
  | ok rs2 => simp [ResponseMangler.send, mangle_callback, h, condAdjust, hA]

theorem send_body_assoc (m : Bytes → Bytes × Bool) (rs : HTTPResponseStartEvent)
    (acc x y : Bytes) (mb : Bool) :
    ResponseMangler.send m ⟨false, some rs, acc⟩ (.body (x ++ y) mb)
      = ResponseMangler.send m ⟨false, some rs, acc ++ x⟩ (.body y mb) := by
  simp [ResponseMangler.send, List.append_assoc]

theorem sendList_singleton (m : Bytes → Bytes × Bool) (st : ManglerState)
    (e : ASGISendEvent) : sendList m st [e] = ResponseMangler.send m st e := by
  cases h : ResponseMangler.send m st e with
  | error s => simp [sendList, h]
  | ok p => cases p with | mk st2 out1 => simp [sendList, h]

theorem sendList_start_cons (m : Bytes → Bytes × Bool)
    (rs : HTTPResponseStartEvent) (evs : List ASGISendEvent) :
    sendList m initialMangler (.start rs :: evs)
      = sendList m ⟨false, some rs, []⟩ evs := by
  cases h : sendList m ⟨false, some rs, []⟩ evs with
  | error s => simp [sendList, ResponseMangler.send, initialMangler, h]
  | ok p => cases p with | mk st2 out2 =>
      simp [sendList, ResponseMangler.send, initialMangler, h]

theorem sendList_done (m : Bytes → Bytes × Bool) (st : ManglerState)
    (evs : List ASGISendEvent) (h : st.done = true) :
    sendList m st evs = .ok (st, evs) := by
  induction evs with
  | nil => simp [sendList]
  | cons e rest ih => simp [sendList, ResponseMangler.send, h, ih]

theorem startsOf_bodyEvents (cs : List Bytes) : startsOf (bodyEvents cs) = [] := by
  induction cs with
  | nil => rfl
  | cons c rest ih =>
    cases rest with
    | nil => rfl
    | cons c2 r2 => simpa [bodyEvents, startsOf] using ih

theorem bodyBytesOf_bodyEvents (cs : List Bytes) :
    bodyBytesOf (bodyEvents cs) = cs.flatten := by
  induction cs with
  | nil => rfl
  | cons c rest ih =>
    cases rest with
    | nil => simp [bodyEvents, bodyBytesOf]
    | cons c2 r2 => simpa [bodyEvents, bodyBytesOf] using congrArg (c ++ ·) ih

theorem condAdjust_eq (script b : Bytes) (rs : HTTPResponseStartEvent)
    (h : containsSeq headMarker b = true) :
    condAdjust script rs b =
      if script.length ≠ headMarker.length
      then _add_to_content_length rs
        ((script.length : Int) - (headMarker.length : Int))
      else .ok rs := by
  have hlen := replace1_length headMarker script b h
  rw [condAdjust]
  by_cases hc : script.length = headMarker.length
  · rw [if_neg (by omega), if_neg (by simp [hc])]
  · rw [if_pos (by omega), if_pos (by simpa using hc)]
    congr 1
    omega

theorem sendList_chunked (script : Bytes) (cs : List Bytes) :
    ∀ (rs : HTTPResponseStartEvent) (acc : Bytes), cs ≠ [] →
      containsSeq headMarker acc = false →
      summary (sendList (mangle_callback script) ⟨false, some rs, acc⟩
        (bodyEvents cs)) =
      summary (sendList (mangle_callback script) ⟨false, some rs, acc⟩
        [.body cs.flatten false]) := by
  induction cs with
  | nil => intro rs acc hne _; exact absurd rfl hne
  | cons c rest ih =>
    intro rs acc _ hacc
    cases rest with
    | nil => simp [bodyEvents]
    | cons c2 r2 =>
      by_cases hm : containsSeq headMarker (acc ++ c) = true
      · have hsend := send_flush_marker script rs acc c true hm
        have hjc : containsSeq headMarker (acc ++ (c :: c2 :: r2).flatten) = true := by
          have := containsSeq_append_right headMarker (acc ++ c) ((c2 :: r2).flatten) hm
          simpa [List.append_assoc] using this
        have hsingle := send_flush_marker script rs acc ((c :: c2 :: r2).flatten) false hjc
        rw [condAdjust_eq _ _ _ hm] at hsend
        rw [condAdjust_eq _ _ _ hjc] at hsingle
        have hrepl : replace1 headMarker script (acc ++ (c :: c2 :: r2).flatten)
            = replace1 headMarker script (acc ++ c) ++ (c2 :: r2).flatten := by
          have := replace1_append_of_contains headMarker script (acc ++ c)
            ((c2 :: r2).flatten) hm
          simpa [List.append_assoc] using this
        cases hE : (if script.length ≠ headMarker.length
            then _add_to_content_length rs
              ((script.length : Int) - (headMarker.length : Int))
            else .ok rs) with
        | error e =>
          rw [hE] at hsend hsingle
          rw [sendList_singleton, hsingle]
          simp [bodyEvents, sendList, hsend, summary]
        | ok rs2 =>
          rw [hE] at hsend hsingle
          rw [sendList_singleton, hsingle]
          have hrepl2 : replace1 headMarker script (acc ++ (c ++ (c2 ++ r2.flatten)))
              = replace1 headMarker script (acc ++ c) ++ (c2 ++ r2.flatten) := by
            simpa [List.append_assoc] using hrepl
          simp [bodyEvents, sendList, hsend,
            sendList_done (mangle_callback script) ⟨true, none, []⟩ _ rfl,
            summary, Except.map, startsOf, bodyBytesOf, startsOf_bodyEvents,
            bodyBytesOf_bodyEvents, hrepl2]
      · have hm' : containsSeq headMarker (acc ++ c) = false := by
          simpa using hm
        have hsend := send_accumulate script rs acc c hm'
        have hLHS : sendList (mangle_callback script) ⟨false, some rs, acc⟩
              (bodyEvents (c :: c2 :: r2))
            = sendList (mangle_callback script) ⟨false, some rs, acc ++ c⟩
              (bodyEvents (c2 :: r2)) := by
          cases hres : sendList (mangle_callback script) ⟨false, some rs, acc ++ c⟩
              (bodyEvents (c2 :: r2)) with
          | error s => simp [bodyEvents, sendList, hsend, hres]
          | ok p => cases p with | mk st3 out2 => simp [bodyEvents, sendList, hsend, hres]
        rw [hLHS, ih rs (acc ++ c) (by simp) hm']
        rw [sendList_singleton, sendList_singleton]
        rw [show (c :: c2 :: r2).flatten = c ++ (c2 :: r2).flatten from by simp]
        rw [send_body_assoc]

theorem single_no_marker (script B : Bytes) (rs : HTTPResponseStartEvent)
    (h : containsSeq headMarker B = false) :
    sendList (mangle_callback script) ⟨false, some rs, []⟩ [.body B false]
      = .ok (⟨true, none, []⟩, [.start rs, .body B false]) := by
  rw [sendList_singleton]
  simp [ResponseMangler.send, mangle_callback, h]

theorem single_marker (script B : Bytes) (rs : HTTPResponseStartEvent)
    (h : containsSeq headMarker B = true) :
    sendList (mangle_callback script) ⟨false, some rs, []⟩ [.body B false]
      = match condAdjust script rs B with
        | .error e => .error e
        | .ok rs2 => .ok (⟨true, none, []⟩,
            [.start rs2, .body (replace1 headMarker script B) false]) := by
  rw [sendList_singleton]
  have h0 : containsSeq headMarker (([] : Bytes) ++ B) = true := by simpa using h
  have := send_flush_marker script rs [] B false h0
  simpa using this

theorem adjustHeaders_no_cl (offset : Int) (hs : List (Bytes × Bytes))
    (h : ∀ kv ∈ hs, kv.1.all (· < 128) = true ∧ lowerBytes kv.1 ≠ contentLengthBytes) :
    adjustHeaders offset hs = .ok hs := by
  induction hs with
  | nil => rfl
  | cons kv rest ih =>
    obtain ⟨h1, h2⟩ := h kv (by simp)
    cases kv with
    | mk name value =>
      simp only at h1 h2
      rw [adjustHeaders, if_pos h1, if_neg h2, ih (fun kv hkv => h kv (by simp [hkv]))]

theorem adjustHeaders_split (offset : Int) (pre post : List (Bytes × Bytes))
    (n val : Bytes) (i : Int)
    (hpre : ∀ kv ∈ pre, kv.1.all (· < 128) = true ∧ lowerBytes kv.1 ≠ contentLengthBytes)
    (hpost : ∀ kv ∈ post, kv.1.all (· < 128) = true ∧ lowerBytes kv.1 ≠ contentLengthBytes)
    (hna : n.all (· < 128) = true) (hncl : lowerBytes n = contentLengthBytes)
    (hval : parsePyInt val = some i) :
    adjustHeaders offset (pre ++ (n, val) :: post)
      = .ok (pre ++ (n, intDec (i + offset)) :: post) := by
  induction pre with
  | nil =>
    simp only [List.nil_append]
    rw [adjustHeaders, if_pos hna, if_pos hncl, hval,
      adjustHeaders_no_cl offset post hpost]
  | cons kv rest ih =>
    obtain ⟨h1, h2⟩ := hpre kv (by simp)
    cases kv with
    | mk name value =>
      simp only at h1 h2
      simp only [List.cons_append]
      rw [adjustHeaders, if_pos h1, if_neg h2,
        ih (fun kv hkv => hpre kv (by simp [hkv]))]

theorem intDec_ofNat (m : Nat) : intDec (m : Int) = natDec m := by
  rw [intDec, if_neg (by omega)]
  simp

-- ### Claims about the ContentRewriter (C1, C2, C5)

/-- C2: for every response body and every way of splitting it into a
sequence of chunks (including splits that cut the `b"</head>"` marker across
two chunks), feeding the chunks through `ResponseMangler.send` with the
middleware's `mangle_callback` produces the same observable downstream
output — the same (possibly length-corrected) start event and the same total
body bytes — as sending the whole body as a single chunk. -/
theorem claim_C2_chunk_boundary_independence (script B : Bytes)
    (cs : List Bytes) (rs : HTTPResponseStartEvent)
    (hne : cs ≠ []) (hflat : cs.flatten = B) :
    summary (sendList (mangle_callback script) initialMangler
      (.start rs :: bodyEvents cs)) =
    summary (sendList (mangle_callback script) initialMangler
      [.start rs, .body B false]) := by
  subst hflat
  rw [sendList_start_cons, sendList_start_cons]
  exact sendList_chunked script cs rs [] hne (by decide)

/-- Witness for C2 at a concrete chunking that cuts the marker in two. -/
theorem claim_C2_witness :
    summary (sendList (mangle_callback (strBytes "XY</head>")) initialMangler
      (.start ⟨200, []⟩ :: bodyEvents [strBytes "a</he", strBytes "ad>b"])) =
    summary (sendList (mangle_callback (strBytes "XY</head>")) initialMangler
      [.start ⟨200, []⟩, .body (strBytes "a</head>b") false]) :=
  claim_C2_chunk_boundary_independence (strBytes "XY</head>")
    (strBytes "a</head>b") [strBytes "a</he", strBytes "ad>b"] ⟨200, []⟩
    (by decide) (by decide)

/-- C5: a body with no occurrence of `b"</head>"`, however chunked, passes
through unmodified: the start event (and hence any declared Content-Length)
is forwarded exactly as received and the emitted body bytes equal the input. -/
theorem claim_C5_no_marker_passthrough (script B : Bytes) (cs : List Bytes)
    (rs : HTTPResponseStartEvent) (hne : cs ≠ []) (hflat : cs.flatten = B)
    (hnom : containsSeq headMarker B = false) :
    summary (sendList (mangle_callback script) initialMangler
      (.start rs :: bodyEvents cs)) = .ok ([rs], B) := by
  subst hflat
  rw [sendList_start_cons,
    sendList_chunked script cs rs [] hne (by decide),
    single_no_marker script cs.flatten rs hnom]
  simp [summary, Except.map, startsOf, bodyBytesOf]

/-- Witness for C5 on a concrete marker-free chunked body. -/
theorem claim_C5_witness :
    summary (sendList (mangle_callback (strBytes "XY</head>")) initialMangler
      (.start ⟨200, [(strBytes "Content-Length", natDec 8)]⟩
        :: bodyEvents [strBytes "hello", strBytes " wor"])) =
    .ok ([⟨200, [(strBytes "Content-Length", natDec 8)]⟩], strBytes "hello wor") :=
  claim_C5_no_marker_passthrough (strBytes "XY</head>") (strBytes "hello wor")
    [strBytes "hello", strBytes " wor"]
    ⟨200, [(strBytes "Content-Length", natDec 8)]⟩
    (by decide) (by decide) (by decide)

/-- C1: for a body `u ++ b"</head>" ++ v` whose marked occurrence is the
first one (no occurrence starts earlier), delivered in any number of chunks,
with a start event declaring `Content-Length` equal to the body length
(among arbitrary other headers), the rewriter emits a start event whose
`Content-Length` is the body length plus `len(script) - len(b"</head>")`
and a total body equal to the input with the injected fragment spliced in
place of that first marker occurrence. -/
theorem claim_C1_content_length_and_splice (script u v : Bytes)
    (pre post : List (Bytes × Bytes)) (n : Bytes) (cs : List Bytes)
    (status : Nat)
    (hne : cs ≠ [])
    (hflat : cs.flatten = u ++ headMarker ++ v)
    (hfirst : containsSeq headMarker (u ++ headMarker.dropLast) = false)
    (hna : n.all (· < 128) = true)
    (hncl : lowerBytes n = contentLengthBytes)
    (hpre : ∀ kv ∈ pre,
      kv.1.all (· < 128) = true ∧ lowerBytes kv.1 ≠ contentLengthBytes)
    (hpost : ∀ kv ∈ post,
      kv.1.all (· < 128) = true ∧ lowerBytes kv.1 ≠ contentLengthBytes) :
    summary (sendList (mangle_callback script) initialMangler
      (.start ⟨status, pre ++ (n, natDec (u ++ headMarker ++ v).length) :: post⟩
        :: bodyEvents cs)) =
    .ok ([⟨status, pre ++ (n, intDec (((u ++ headMarker ++ v).length : Int)
            + (script.length : Int) - (headMarker.length : Int))) :: post⟩],
         u ++ script ++ v) := by
  have hmne : headMarker ≠ [] := by decide
  have hpfx_self : isPfx headMarker headMarker = true := by
    simpa using isPfx_self_append headMarker []
  have hcont : containsSeq headMarker (u ++ headMarker ++ v) = true :=
    containsSeq_append_right _ _ v
      (containsSeq_append_left _ u _ (containsSeq_of_isPfx _ _ hpfx_self))
  have hsplice := replace1_splice headMarker script u v hmne hfirst
  have hsplice2 : replace1 headMarker script (u ++ (headMarker ++ v))
      = u ++ (script ++ v) := by
    simpa [List.append_assoc] using hsplice
  rw [sendList_start_cons,
    sendList_chunked script cs _ [] hne (by decide), hflat,
    single_marker script _ _ hcont, condAdjust_eq script _ _ hcont]
  by_cases hsc : script.length = headMarker.length
  · rw [if_neg (by simp [hsc])]
    have harg : ((u ++ headMarker ++ v).length : Int) + (script.length : Int)
        - (headMarker.length : Int) = ((u ++ headMarker ++ v).length : Int) := by
      rw [hsc]; ring
    rw [harg, intDec_ofNat]
    simp [summary, Except.map, startsOf, bodyBytesOf, hsplice, hsplice2]
  · rw [if_pos hsc]
    rw [_add_to_content_length]
    have hadj := adjustHeaders_split
      ((script.length : Int) - (headMarker.length : Int)) pre post n
      (natDec (u ++ headMarker ++ v).length)
      (((u ++ headMarker ++ v).length : Nat) : Int) hpre hpost hna hncl
      (parsePyInt_natDec _)
    rw [show (⟨status, pre ++ (n, natDec (u ++ headMarker ++ v).length) :: post⟩
        : HTTPResponseStartEvent).headers
      = pre ++ (n, natDec (u ++ headMarker ++ v).length) :: post from rfl]
    rw [hadj]
    have harg : (((u ++ headMarker ++ v).length : Int)
        + ((script.length : Int) - (headMarker.length : Int)))
        = ((u ++ headMarker ++ v).length : Int) + (script.length : Int)
          - (headMarker.length : Int) := by ring
    rw [harg]
    simp [summary, Except.map, startsOf, bodyBytesOf, hsplice, hsplice2]

/-- Witness for C1: a chunked body cutting the marker across two chunks,
one other header present, script 8 bytes long (delta +1). -/
theorem claim_C1_witness :
    summary (sendList (mangle_callback (strBytes "S</head>")) initialMangler
      (.start ⟨200, [(strBytes "X-Other", strBytes "zz")]
          ++ (strBytes "Content-Length",
              natDec (strBytes "ab" ++ headMarker ++ strBytes "cd").length) :: []⟩
        :: bodyEvents [strBytes "ab</he", strBytes "ad>cd"])) =
    .ok ([⟨200, [(strBytes "X-Other", strBytes "zz")]
          ++ (strBytes "Content-Length",
              intDec (((strBytes "ab" ++ headMarker ++ strBytes "cd").length : Int)
                + ((strBytes "S</head>").length : Int)
                - (headMarker.length : Int))) :: []⟩],
         strBytes "ab" ++ strBytes "S</head>" ++ strBytes "cd") :=
  claim_C1_content_length_and_splice (strBytes "S</head>") (strBytes "ab")
    (strBytes "cd") [(strBytes "X-Other", strBytes "zz")] []
    (strBytes "Content-Length") [strBytes "ab</he", strBytes "ad>cd"] 200
    (by decide) (by decide) (by decide) (by decide) (by decide) (by decide)
    (by decide)

-- ### Claims C3 and C6: event ordering and contract violation

/-- True exactly on `http.response.body` events. -/
def isBodyEvent : ASGISendEvent → Bool
  | .body _ _ => true
  | .start _ => false

/-- The shape the downstream sink may observe at any point: either nothing
has been forwarded yet, or exactly one response-start event came first,
followed only by body events. -/
def goodShape (outs : List ASGISendEvent) : Prop :=
  outs = [] ∨ ∃ rs tailEvs, outs = .start rs :: tailEvs
    ∧ ∀ e ∈ tailEvs, isBodyEvent e = true

theorem sendList_cons_err (m : Bytes → Bytes × Bool) (st : ManglerState)
    (e : ASGISendEvent) (evs : List ASGISendEvent) (s : String)
    (h : ResponseMangler.send m st e = .error s) :
    sendList m st (e :: evs) = .error s := by
  simp [sendList, h]

theorem sendList_cons_ok_err (m : Bytes → Bytes × Bool) (st st2 : ManglerState)
    (e : ASGISendEvent) (out1 : List ASGISendEvent) (evs : List ASGISendEvent)
    (s : String) (h : ResponseMangler.send m st e = .ok (st2, out1))
    (h2 : sendList m st2 evs = .error s) :
    sendList m st (e :: evs) = .error s := by
  simp [sendList, h, h2]

theorem sendList_cons_ok_ok (m : Bytes → Bytes × Bool) (st st2 st3 : ManglerState)
    (e : ASGISendEvent) (out1 out2 : List ASGISendEvent) (evs : List ASGISendEvent)
    (h : ResponseMangler.send m st e = .ok (st2, out1))
    (h2 : sendList m st2 evs = .ok (st3, out2)) :
    sendList m st (e :: evs) = .ok (st3, out1 ++ out2) := by
  simp [sendList, h, h2]

theorem send_body_cases (m : Bytes → Bytes × Bool) (st : ManglerState)
    (chunk : Bytes) (mb : Bool) (hdone : st.done = false)
    (rs : HTTPResponseStartEvent) (hrs : st.response_start = some rs) :
    (∃ e, ResponseMangler.send m st (.body chunk mb) = .error e) ∨
    (∃ rs2, ResponseMangler.send m st (.body chunk mb)
        = .ok (⟨true, none, []⟩,
            [.start rs2, .body (m (st.body ++ chunk)).1 mb])) ∨
    (∃ rs2, ResponseMangler.send m st (.body chunk mb)
        = .ok (⟨false, some rs2, (m (st.body ++ chunk)).1⟩, [])) := by
  cases st with
  | mk d r b =>
    simp only at hdone hrs
    subst hdone
    subst hrs
    have hunfold : ResponseMangler.send m ⟨false, some rs, b⟩ (.body chunk mb)
        = match (if (m (b ++ chunk)).1.length ≠ (b ++ chunk).length
            then _add_to_content_length rs
              (((m (b ++ chunk)).1.length : Int) - ((b ++ chunk).length : Int))
            else Except.ok rs) with
          | Except.error e => Except.error e
          | Except.ok rs2 =>
            if (m (b ++ chunk)).2 || !mb then
              Except.ok (⟨true, none, []⟩,
                [ASGISendEvent.start rs2, ASGISendEvent.body (m (b ++ chunk)).1 mb])
            else Except.ok (⟨false, some rs2, (m (b ++ chunk)).1⟩, []) := rfl
    cases hA : (if (m (b ++ chunk)).1.length ≠ (b ++ chunk).length
        then _add_to_content_length rs
          (((m (b ++ chunk)).1.length : Int) - ((b ++ chunk).length : Int))
        else Except.ok rs) with
    | error e =>
      refine Or.inl ⟨e, ?_⟩
      rw [hunfold, hA]
    | ok rs2 =>
      by_cases hflush : ((m (b ++ chunk)).2 || !mb) = true
      · refine Or.inr (Or.inl ⟨rs2, ?_⟩)
        rw [hunfold, hA]
        simp [hflush]
      · refine Or.inr (Or.inr ⟨rs2, ?_⟩)
        rw [hunfold, hA]
        simp [hflush]

theorem sendList_body_shape (m : Bytes → Bytes × Bool) :
    ∀ (bevs : List ASGISendEvent), (∀ e ∈ bevs, isBodyEvent e = true) →
    ∀ (st : ManglerState), st.done = false →
    ∀ (p : ManglerState × List ASGISendEvent),
      sendList m st bevs = .ok p → goodShape p.2 := by
  intro bevs
  induction bevs with
  | nil =>
    intro _ st _ p hp
    simp only [sendList, Except.ok.injEq] at hp
    exact Or.inl (by rw [← hp])
  | cons e rest ih =>
    intro hb st hst p hp
    have he : isBodyEvent e = true := hb e (by simp)
    cases e with
    | start rs => simp [isBodyEvent] at he
    | body chunk mb =>
      cases hrs : st.response_start with
      | none =>
        have hsend : ResponseMangler.send m st (.body chunk mb)
            = .error "http.response.body ASGI event sent before http.response.start" := by
          cases st with
          | mk d r b =>
            simp only at hst hrs
            subst hst; subst hrs
            rfl
        rw [sendList_cons_err m st _ rest _ hsend] at hp
        exact absurd hp (by simp)
      | some rs =>
        rcases send_body_cases m st chunk mb hst rs hrs with
          ⟨s, hsend⟩ | ⟨rs2, hsend⟩ | ⟨rs2, hsend⟩
        · rw [sendList_cons_err m st _ rest _ hsend] at hp
          exact absurd hp (by simp)
        · rw [sendList_cons_ok_ok m st ⟨true, none, []⟩ ⟨true, none, []⟩ _ _ rest
            rest hsend (sendList_done m ⟨true, none, []⟩ rest rfl)] at hp
          simp only [Except.ok.injEq] at hp
          subst hp
          refine Or.inr ⟨rs2, .body (m (st.body ++ chunk)).1 mb :: rest, by simp, ?_⟩
          intro e2 he2
          rcases List.mem_cons.mp he2 with h | h
          · subst h; rfl
          · exact hb e2 (by simp [h])
        · cases hrest : sendList m ⟨false, some rs2, (m (st.body ++ chunk)).1⟩ rest with
          | error s =>
            rw [sendList_cons_ok_err m st _ _ _ rest s hsend hrest] at hp
            exact absurd hp (by simp)
          | ok p2 =>
            cases p2 with
            | mk st3 out2 =>
              rw [sendList_cons_ok_ok m st _ st3 _ [] out2 rest hsend hrest] at hp
              simp only [List.nil_append, Except.ok.injEq] at hp
              subst hp
              exact ih (fun e2 he2 => hb e2 (by simp [he2]))
                ⟨false, some rs2, (m (st.body ++ chunk)).1⟩ rfl (st3, out2) hrest

/-- C3: processing any well-formed response event sequence (one
response-start, then only body events), the `ResponseMangler` has forwarded,
after any prefix of the input, either nothing at all (before its flush) or
exactly one response-start event strictly before any body events: no body
bytes ever reach the sink ahead of the start event. -/
theorem claim_C3_start_before_body (m : Bytes → Bytes × Bool)
    (rs : HTTPResponseStartEvent) (bevs evs1 evs2 : List ASGISendEvent)
    (hb : ∀ e ∈ bevs, isBodyEvent e = true)
    (hsplit : ASGISendEvent.start rs :: bevs = evs1 ++ evs2)
    (p : ManglerState × List ASGISendEvent)
    (hok : sendList m initialMangler evs1 = .ok p) :
    goodShape p.2 := by
  cases evs1 with
  | nil =>
    simp only [sendList, Except.ok.injEq] at hok
    exact Or.inl (by rw [← hok])
  | cons e1 r1 =>
    simp only [List.cons_append, List.cons.injEq] at hsplit
    obtain ⟨h1, h2⟩ := hsplit
    subst h1
    rw [sendList_start_cons] at hok
    exact sendList_body_shape m r1
      (fun e heEl => hb e (by rw [h2]; exact List.mem_append_left _ heEl))
      ⟨false, some rs, []⟩ rfl p hok

/-- Witness for C3: a concrete two-event input whose full processing output
starts with the single start event followed by one body event. -/
theorem claim_C3_witness :
    goodShape [ASGISendEvent.start ⟨200, []⟩,
      ASGISendEvent.body (strBytes "hi") false] :=
  claim_C3_start_before_body (mangle_callback (strBytes "X</head>"))
    ⟨200, []⟩ [ASGISendEvent.body (strBytes "hi") false]
    [ASGISendEvent.start ⟨200, []⟩, ASGISendEvent.body (strBytes "hi") false] []
    (by decide) (by decide)
    (⟨true, none, []⟩,
      [ASGISendEvent.start ⟨200, []⟩, ASGISendEvent.body (strBytes "hi") false])
    (by rfl)

/-- C6: a fresh `ResponseMangler` receiving an `http.response.body` event
before any `http.response.start` raises an assertion-style error and
forwards nothing downstream (the error result carries no forwarded events). -/
theorem claim_C6_body_before_start_errors (m : Bytes → Bytes × Bool)
    (chunk : Bytes) (mb : Bool) :
    ResponseMangler.send m initialMangler (.body chunk mb)
      = .error "http.response.body ASGI event sent before http.response.start" :=
  rfl

-- ### The reload control server (parent process side)

/-- Modelled from the spec: the pulse/wait broadcast primitive of §4.2
(ReloadSignal), i.e. the semantics of the `asyncio.Event` named `reload_now`
used by `nudge` and the `/autoreload` handler.  The event library itself is
not part of this repository: `flag` is the event's set/cleared state and
`waiters` the tasks currently suspended in `wait()`, in arrival order. -/
structure EventState where
  flag : Bool
  waiters : List Nat
deriving DecidableEq

/-- Modelled from the spec: `Event.set()` wakes every currently suspended
waiter and leaves the flag set. Returns the woken tasks. -/
def evSet (s : EventState) : EventState × List Nat :=
  (⟨true, []⟩, s.waiters)

/-- Modelled from the spec: `Event.clear()` resets the flag. -/
def evClear (s : EventState) : EventState := ⟨false, s.waiters⟩

/-- Modelled from the spec: `Event.wait()` by task `t`: returns immediately
when the flag is set, otherwise suspends the task (second component `true`
means the task is now suspended). -/
def evWait (t : Nat) (s : EventState) : EventState × Bool :=
  if s.flag then (s, false) else (⟨s.flag, s.waiters ++ [t]⟩, true)

/-- The `reload_now.set(); reload_now.clear()` pulse performed by `nudge`:
wake everyone currently waiting, then reset, buffering nothing. -/
def pulse (s : EventState) : EventState × List Nat :=
  let r := evSet s
  (evClear r.1, r.2)

/-- An observable action of one `nudge()` invocation. -/
inductive NudgeEffect where
  | openBrowser
  | pulseSignal
deriving DecidableEq

/-- The state shared by all `nudge` invocations: the closed-over
`launch_browser` flag and the reload signal. -/
structure NudgeState where
  launch_browser : Bool
  ev : EventState
deriving DecidableEq

/-- `nudge()` from `_coro_main`: on the first invocation with the
`launch_browser` flag set it opens the browser and clears the flag; it always
pulses `reload_now` (set immediately followed by clear). -/
def nudge (st : NudgeState) : NudgeState × List NudgeEffect :=
  if st.launch_browser then
    (⟨false, (pulse st.ev).1⟩, [.openBrowser, .pulseSignal])
  else
    (⟨st.launch_browser, (pulse st.ev).1⟩, [.pulseSignal])

/-- Iterate `nudge` `k` times, recording each invocation's effects. -/
def nudgeN : Nat → NudgeState → NudgeState × List (List NudgeEffect)
  | 0, st => (st, [])
  | k + 1, st =>
    let r := nudge st
    let r2 := nudgeN k r.1
    (r2.1, r.2 :: r2.2)

/-- The `.get` view of a request-header multidict: the headers collaborator
is external, so a request carries its lookup function directly. -/
structure WsRequest where
  path : String
  headers : String → Option String

/-- A `websockets.http11.Response` as built by `process_request`. -/
structure WsResponse where
  status_code : Nat
  reason_phrase : String
  headers : List (String × String)

/-- `process_request` from `_coro_main`: non-upgrade requests receive a 301
redirect to the application URL; upgrade requests proceed (`none`).
`http.HTTPStatus.MOVED_PERMANENTLY` is 301. -/
def process_request (app_url : String) (req : WsRequest) : Option WsResponse :=
  match req.headers "Upgrade" with
  | none => some ⟨301, "Moved Permanently", [("Location", app_url)]⟩
  | some _ => none

/-- A websocket message as returned by `conn.recv()`: text or binary. -/
inductive WsData where
  | str (s : String)
  | bin (b : Bytes)
deriving DecidableEq

/-- An observable effect of the `/notify` branch of `reload_server`. -/
inductive NotifyEffect where
  | recvMsg
  | nudged
deriving DecidableEq

/-- The `/notify` branch of `reload_server` (lines 227-236): compare the
`Shiny-Autoreload-Secret` header (defaulting to the empty string) with the
server secret; on mismatch return immediately; otherwise receive one message
and invoke `nudge` only when it is the text frame `"reload_end"`.
`incoming` is what `conn.recv()` would deliver.  The effect trace lists, in
order, the receives and nudges the handler performs. -/
def notifyHandler (secret : String) (req : WsRequest) (incoming : WsData) :
    List NotifyEffect :=
  let req_secret := (req.headers "Shiny-Autoreload-Secret").getD ""
  if req_secret ≠ secret then []
  else
    .recvMsg :: (match incoming with
      | .str s => if s = "reload_end" then [.nudged] else []
      | .bin _ => [])

/-- The per-connection outcome of `reload_server`'s dispatch. -/
inductive HandlerOutcome where
  | errorNoRequest
  | serveAutoreloadLoop
  | notifyTrace (effects : List NotifyEffect)
  | noAction

/-- `reload_server` dispatch: no request raises, `/autoreload` enters the
push loop (not unfolded here), `/notify` runs the authentication branch,
any other path falls through without action. -/
def reload_server (secret : String) (request : Option WsRequest)
    (incoming : WsData) : HandlerOutcome :=
  match request with
  | none => .errorNoRequest
  | some req =>
    if req.path = "/autoreload" then .serveAutoreloadLoop
    else if req.path = "/notify" then .notifyTrace (notifyHandler secret req incoming)
    else .noAction

/-- C4: a `/notify` connection whose `Shiny-Autoreload-Secret` header value
(defaulting to the empty string when absent) differs from the server secret
produces an empty effect trace: `nudge` is never invoked (so the reload
signal is never pulsed and no `/autoreload` waiter is woken) and no message
is ever received from the connection, whatever the client would send. -/
theorem claim_C4_auth_gate (secret : String) (req : WsRequest)
    (incoming : WsData) (hpath : req.path = "/notify")
    (hsec : (req.headers "Shiny-Autoreload-Secret").getD "" ≠ secret) :
    reload_server secret (some req) incoming = .notifyTrace []
      ∧ NotifyEffect.nudged ∉ notifyHandler secret req incoming
      ∧ NotifyEffect.recvMsg ∉ notifyHandler secret req incoming := by
  have htrace : notifyHandler secret req incoming = [] := by
    simp [notifyHandler, hsec]
  refine ⟨?_, by simp [htrace], by simp [htrace]⟩
  simp [reload_server, hpath, htrace]

/-- Witness for C4: a concrete connection presenting the wrong secret and
then sending the magic `"reload_end"` frame is still ignored entirely. -/
theorem claim_C4_witness :
    reload_server "s3cret" (some ⟨"/notify", fun k =>
        if k = "Shiny-Autoreload-Secret" then some "wrong" else none⟩)
      (.str "reload_end") = .notifyTrace []
      ∧ NotifyEffect.nudged ∉ notifyHandler "s3cret"
          ⟨"/notify", fun k =>
            if k = "Shiny-Autoreload-Secret" then some "wrong" else none⟩
          (.str "reload_end")
      ∧ NotifyEffect.recvMsg ∉ notifyHandler "s3cret"
          ⟨"/notify", fun k =>
            if k = "Shiny-Autoreload-Secret" then some "wrong" else none⟩
          (.str "reload_end") :=
  claim_C4_auth_gate "s3cret"
    ⟨"/notify", fun k =>
      if k = "Shiny-Autoreload-Secret" then some "wrong" else none⟩
    (.str "reload_end") rfl (by decide)

/-- C7: a pulse (set immediately followed by clear) wakes exactly the tasks
already suspended in `wait()`, leaves the flag cleared with no suspended
tasks, a task that starts waiting after the pulse suspends and is only woken
by a subsequent pulse, and a pulse with zero waiters leaves the state
unchanged (no buffering). -/
theorem claim_C7_pulse_semantics (s : EventState) (t : Nat)
    (h : s.flag = false) :
    (pulse s).2 = s.waiters ∧
    (pulse s).1 = ⟨false, []⟩ ∧
    (evWait t (pulse s).1).2 = true ∧
    (pulse ((evWait t (pulse s).1).1)).2 = [t] ∧
    (s.waiters = [] → (pulse s).1 = s) := by
  cases s with
  | mk f w =>
    simp only at h
    subst h
    exact ⟨rfl, rfl, rfl, rfl, fun hw => by
      have hw2 : w = [] := hw
      rw [hw2]
      rfl⟩

/-- Witness for C7 with three suspended waiters. -/
theorem claim_C7_witness :
    (pulse ⟨false, [1, 2, 3]⟩).2 = ([1, 2, 3] : List Nat) ∧
    (pulse ⟨false, [1, 2, 3]⟩).1 = ⟨false, []⟩ ∧
    (evWait 7 (pulse ⟨false, [1, 2, 3]⟩).1).2 = true ∧
    (pulse ((evWait 7 (pulse ⟨false, [1, 2, 3]⟩).1).1)).2 = [7] ∧
    (([1, 2, 3] : List Nat) = [] → (pulse ⟨false, [1, 2, 3]⟩).1 = ⟨false, [1, 2, 3]⟩) :=
  claim_C7_pulse_semantics ⟨false, [1, 2, 3]⟩ 7 rfl

theorem nudgeN_false (k : Nat) : ∀ ev : EventState,
    (nudgeN k ⟨false, ev⟩).2 = List.replicate k [NudgeEffect.pulseSignal]
      ∧ (nudgeN k ⟨false, ev⟩).1.launch_browser = false := by
  induction k with
  | zero => intro ev; exact ⟨rfl, rfl⟩
  | succ n ih =>
    intro ev
    obtain ⟨h2, h1⟩ := ih (pulse ev).1
    constructor
    · show [NudgeEffect.pulseSignal] :: (nudgeN n ⟨false, (pulse ev).1⟩).2
        = List.replicate (n + 1) [NudgeEffect.pulseSignal]
      rw [h2, List.replicate_succ]
    · exact h1

theorem flatten_replicate_singleton (n : Nat) (x : NudgeEffect) :
    (List.replicate n [x]).flatten = List.replicate n x := by
  induction n with
  | zero => rfl
  | succ m ih => simp [List.replicate_succ, ih]

theorem count_open_replicate_pulse (n : Nat) :
    (List.replicate n NudgeEffect.pulseSignal).count NudgeEffect.openBrowser = 0 := by
  induction n with
  | zero => rfl
  | succ m ih => simp [List.replicate_succ, List.count_cons, ih]

theorem get_cons_replicate_mem (n : Nat) (hd : List NudgeEffect) (i : Nat)
    (hi : i < (hd :: List.replicate n [NudgeEffect.pulseSignal]).length)
    (hmem : NudgeEffect.openBrowser
      ∈ (hd :: List.replicate n [NudgeEffect.pulseSignal]).get ⟨i, hi⟩) :
    i = 0 ∧ NudgeEffect.openBrowser ∈ hd := by
  cases i with
  | zero => exact ⟨rfl, hmem⟩
  | succ j =>
    have hj : j < (List.replicate n [NudgeEffect.pulseSignal]).length := by
      simpa using hi
    have hred : (hd :: List.replicate n [NudgeEffect.pulseSignal]).get ⟨j + 1, hi⟩
        = (List.replicate n [NudgeEffect.pulseSignal]).get ⟨j, hj⟩ := rfl
    rw [hred] at hmem
    have hm2 : (List.replicate n [NudgeEffect.pulseSignal]).get ⟨j, hj⟩
        ∈ List.replicate n [NudgeEffect.pulseSignal] := List.get_mem _ _ _
    rw [List.eq_of_mem_replicate hm2] at hmem
    simp at hmem

/-- C8: across any number of `nudge` invocations in one server lifetime the
browser is opened at most once — only by the first invocation, and only when
the `launch_browser` flag was initially set, after which the flag is cleared
— while every invocation pulses the reload signal. -/
theorem claim_C8_browser_once (b : Bool) (ev : EventState) (k : Nat) :
    (∀ tr ∈ (nudgeN k ⟨b, ev⟩).2, NudgeEffect.pulseSignal ∈ tr) ∧
    ((nudgeN k ⟨b, ev⟩).2.flatten.count NudgeEffect.openBrowser
      = if b = true ∧ k ≠ 0 then 1 else 0) ∧
    (∀ i, (hi : i < (nudgeN k ⟨b, ev⟩).2.length) →
      NudgeEffect.openBrowser ∈ (nudgeN k ⟨b, ev⟩).2.get ⟨i, hi⟩
        → i = 0 ∧ b = true) ∧
    (k ≠ 0 → (nudgeN k ⟨b, ev⟩).1.launch_browser = false) := by
  cases k with
  | zero => cases b <;> simp [nudgeN]
  | succ n =>
    cases b with
    | false =>
      obtain ⟨h2, h1⟩ := nudgeN_false (n + 1) ev
      refine ⟨?_, ?_, ?_, fun _ => h1⟩
      · rw [h2]
        intro tr htr
        rw [List.eq_of_mem_replicate htr]
        simp
      · rw [h2, flatten_replicate_singleton, count_open_replicate_pulse]
        simp
      · rw [h2, List.replicate_succ]
        intro i hi hmem
        obtain ⟨h0, hhd⟩ := get_cons_replicate_mem n _ i hi hmem
        simp at hhd
    | true =>
      obtain ⟨h2, h1⟩ := nudgeN_false n (pulse ev).1
      have htr : (nudgeN (n + 1) (⟨true, ev⟩ : NudgeState)).2
          = [NudgeEffect.openBrowser, NudgeEffect.pulseSignal]
            :: (nudgeN n ⟨false, (pulse ev).1⟩).2 := rfl
      have hfin : (nudgeN (n + 1) (⟨true, ev⟩ : NudgeState)).1
          = (nudgeN n ⟨false, (pulse ev).1⟩).1 := rfl
      refine ⟨?_, ?_, ?_, fun _ => by rw [hfin]; exact h1⟩
      · rw [htr, h2]
        intro tr htr2
        rcases List.mem_cons.mp htr2 with h | h
        · rw [h]; simp
        · rw [List.eq_of_mem_replicate h]; simp
      · rw [htr, h2]
        simp only [List.flatten_cons, flatten_replicate_singleton]
        rw [List.count_append, count_open_replicate_pulse]
        simp [List.count_cons]
      · rw [htr, h2]
        intro i hi hmem
        exact ⟨(get_cons_replicate_mem n _ i hi hmem).1, rfl⟩

/-- Witness for C8: two invocations with the flag initially set. -/
theorem claim_C8_witness :
    (∀ tr ∈ (nudgeN 2 ⟨true, ⟨false, []⟩⟩).2, NudgeEffect.pulseSignal ∈ tr) ∧
    ((nudgeN 2 ⟨true, ⟨false, []⟩⟩).2.flatten.count NudgeEffect.openBrowser
      = if true = true ∧ 2 ≠ 0 then 1 else 0) ∧
    (∀ i, (hi : i < (nudgeN 2 ⟨true, ⟨false, []⟩⟩).2.length) →
      NudgeEffect.openBrowser ∈ (nudgeN 2 ⟨true, ⟨false, []⟩⟩).2.get ⟨i, hi⟩
        → i = 0 ∧ true = true) ∧
    (2 ≠ 0 → (nudgeN 2 ⟨true, ⟨false, []⟩⟩).1.launch_browser = false) :=
  claim_C8_browser_once true ⟨false, []⟩ 2

/-- C9: a request to the reload control server with no `Upgrade` header gets
a 301 Moved Permanently response whose `Location` header is the application
URL; a request with an `Upgrade` header gets `none` so the websocket
handshake proceeds. -/
theorem claim_C9_non_upgrade_redirect (app_url : String) (req : WsRequest) :
    (req.headers "Upgrade" = none →
      process_request app_url req
        = some ⟨301, "Moved Permanently", [("Location", app_url)]⟩) ∧
    (∀ v, req.headers "Upgrade" = some v →
      process_request app_url req = none) := by
  constructor
  · intro h
    simp [process_request, h]
  · intro v h
    simp [process_request, h]

/-- Witness for C9: a plain probe without an Upgrade header is redirected. -/
theorem claim_C9_witness :
    process_request "http://127.0.0.1:8000/" ⟨"/autoreload", fun _ => none⟩
      = some ⟨301, "Moved Permanently",
          [("Location", "http://127.0.0.1:8000/")]⟩ :=
  (claim_C9_non_upgrade_redirect "http://127.0.0.1:8000/"
    ⟨"/autoreload", fun _ => none⟩).1 rfl

-- ### The InjectAutoreloadMiddleware constructor (C10)

/-- Python `html.escape(c)` for one character, as the characters it
contributes: the five sequential replacements of `html.escape` (with `&`
first) are equivalent to this single character-wise pass because no
replacement output is itself re-escaped. -/
def htmlEscapeChar (c : Char) : List Char :=
  if c = '&' then "&amp;".data
  else if c = '<' then "&lt;".data
  else if c = '>' then "&gt;".data
  else if c.toNat = 34 then "&quot;".data
  else if c.toNat = 39 then "&#x27;".data
  else [c]

/-- Python `html.escape` applied to a whole string. -/
def htmlEscape (s : String) : String :=
  String.mk (s.data.map htmlEscapeChar).flatten

/-- Python `str.encode("ascii")`: the code points when they are all below
128, otherwise a `UnicodeEncodeError`. -/
def encodeAscii (s : String) : Except String Bytes :=
  if s.data.all (fun c => c.toNat < 128) then .ok (s.data.map Char.toNat)
  else .error "UnicodeEncodeError"

/-- The `self.script` bytes built by `InjectAutoreloadMiddleware.__init__`
when the autoreload websocket URL is truthy: the f-string around the
HTML-escaped URL, ASCII-encoded — which raises when the escaped URL
contains a non-ASCII character. -/
def autoreload_script_bytes (ws_url : String) : Except String Bytes :=
  encodeAscii ("  <script src=\"__shared/shiny-autoreload.js\" data-ws-url=\""
    ++ htmlEscape ws_url ++ "\"></script>\n</head>")

/-- `InjectAutoreloadMiddleware.__init__`: any extra positional or keyword
argument (modelled by their counts) raises `TypeError`; otherwise the
instance's `script` field is the encoded injection fragment when
`autoreload_url()` is truthy (a non-`None`, non-empty URL, mirroring
Python's `if ws_url`) and `b""` when it is falsy. -/
def injectMiddlewareInit (numArgs numKwargs : Nat) (ws_url : Option String) :
    Except String Bytes :=
  if numArgs > 0 ∨ numKwargs > 0 then
    .error "TypeError: InjectAutoreloadMiddleware does not support positional or keyword arguments"
  else
    match ws_url with
    | some u => if u = "" then .ok [] else autoreload_script_bytes u
    | none => .ok []

/-- Which way `InjectAutoreloadMiddleware.__call__` routes a request:
non-http scopes, paths other than `/`, and an empty script all go straight
to the wrapped app; only the remaining case wraps `send` in a
`ResponseMangler`. -/
inductive CallRoute where
  | passthrough
  | mangled
deriving DecidableEq

/-- The routing decision of `InjectAutoreloadMiddleware.__call__`. -/
def middlewareRoute (script : Bytes) (scopeType path : String) : CallRoute :=
  if scopeType ≠ "http" then .passthrough
  else if path ≠ "/" ∨ script.length = 0 then .passthrough
  else .mangled

theorem string_data_append (s t : String) : (s ++ t).data = s.data ++ t.data := by
  cases s
  cases t
  rfl

theorem htmlEscapeChar_ascii (c : Char) (h : c.toNat < 128) :
    (htmlEscapeChar c).all (fun c2 => c2.toNat < 128) = true := by
  rw [htmlEscapeChar]
  split
  · decide
  split
  · decide
  split
  · decide
  split
  · decide
  split
  · decide
  · simp [h]

theorem escape_list_ascii (l : List Char)
    (h : l.all (fun c => c.toNat < 128) = true) :
    ((l.map htmlEscapeChar).flatten).all (fun c => c.toNat < 128) = true := by
  induction l with
  | nil => rfl
  | cons c rest ih =>
    simp only [List.all_cons, Bool.and_eq_true] at h
    simp only [List.map_cons, List.flatten_cons, List.all_append, Bool.and_eq_true]
    exact ⟨htmlEscapeChar_ascii c (by simpa using h.1), ih h.2⟩

theorem htmlEscape_ascii (u : String)
    (h : u.data.all (fun c => c.toNat < 128) = true) :
    (htmlEscape u).data.all (fun c => c.toNat < 128) = true :=
  escape_list_ascii u.data h

/-- C10 as stated is false on the code: even with exactly the app argument,
`__init__` raises when the configured autoreload URL contains a non-ASCII
character, because `html.escape` passes it through and `.encode("ascii")`
then raises `UnicodeEncodeError`. -/
theorem claim_C10_counterexample :
    injectMiddlewareInit 0 0 (some "ws://é") = .error "UnicodeEncodeError" :=
  rfl

/-- C10 (amended): constructing the middleware with any extra positional or
keyword argument raises `TypeError`; with exactly the app argument it never
raises provided any configured autoreload URL is ASCII (otherwise
`.encode("ascii")` raises, see the counterexample); and with no autoreload
URL configured the script is the empty byte string, so every request — any
scope type, any path — is routed straight through. -/
theorem claim_C10_init_and_passthrough (numArgs numKwargs : Nat)
    (ws_url : Option String) :
    (numArgs > 0 ∨ numKwargs > 0 →
      injectMiddlewareInit numArgs numKwargs ws_url
        = .error "TypeError: InjectAutoreloadMiddleware does not support positional or keyword arguments") ∧
    ((∀ u, ws_url = some u → u.data.all (fun c => c.toNat < 128) = true) →
      ∃ scr, injectMiddlewareInit 0 0 ws_url = .ok scr) ∧
    injectMiddlewareInit 0 0 none = .ok [] ∧
    (∀ scopeType path, middlewareRoute [] scopeType path = .passthrough) := by
  refine ⟨?_, ?_, rfl, ?_⟩
  · intro h
    rw [injectMiddlewareInit.eq_def, if_pos h]
  · intro hascii
    rw [injectMiddlewareInit.eq_def, if_neg (by omega)]
    cases ws_url with
    | none => exact ⟨[], rfl⟩
    | some u =>
      show ∃ scr, (if u = "" then Except.ok ([] : Bytes)
        else autoreload_script_bytes u) = Except.ok scr
      by_cases hu : u = ""
      · exact ⟨[], by rw [if_pos hu]⟩
      · rw [if_neg hu, autoreload_script_bytes, encodeAscii]
        have hall : (("  <script src=\"__shared/shiny-autoreload.js\" data-ws-url=\""
              ++ htmlEscape u ++ "\"></script>\n</head>").data).all
            (fun c => c.toNat < 128) = true := by
          simp only [string_data_append, List.all_append, Bool.and_eq_true]
          exact ⟨⟨by decide, htmlEscape_ascii u (hascii u rfl)⟩, by decide⟩
        rw [if_pos hall]
        exact ⟨_, rfl⟩
  · intro scopeType path
    simp [middlewareRoute]

/-- Witness for the amended C10: with an ASCII autoreload URL configured and
exactly the app argument, construction succeeds. -/
theorem claim_C10_witness :
    ∃ scr, injectMiddlewareInit 0 0 (some "ws://127.0.0.1:8000/autoreload")
      = .ok scr :=
  (claim_C10_init_and_passthrough 0 0
    (some "ws://127.0.0.1:8000/autoreload")).2.1
    (fun u hu => by
      injection hu with h
      rw [← h]
      decide)
